import Mathlib

/-!
# Verification of the pdf-master-pro request-processing contract

Shallow embedding of `backend/app.py` (Flask HTTP service exposing PDF
operations).  Strings are modelled as `List Char`; Python `int(...)`
parsing, `str.strip()`, `str.replace(" ", "")`, `str.split(",")` and
`str.split("-", 1)` are modelled character by character.  External
collaborators (PyPDF2, Ghostscript, pikepdf, img2pdf) are abstract
parameters: documents carry an abstract page type, and subprocess /
library calls are function arguments returning `Option` results.
-/

namespace PdfMasterPro

/-! ## Python string primitives -/

/-- ASCII whitespace recognised by Python's `str.strip()` / `int(str)`
(unicode whitespace is out of scope: no input in this development uses it). -/
def isPyWS (c : Char) : Bool :=
  c = ' ' || c = '\t' || c = '\n' || c = '\x0d' || c = '\x0b' || c = '\x0c'

/-- Python `str.strip()`: drop whitespace from both ends. -/
def stripWS (cs : List Char) : List Char :=
  ((cs.dropWhile isPyWS).reverse.dropWhile isPyWS).reverse

/-- Numeric value of a decimal digit character. -/
def digitVal (c : Char) : Nat := c.toNat - 48

/-- Digit run of Python `int(str)` after the first digit: decimal digits with
single underscores allowed between digits (`1_0` is `10`, `1__0`, `1_` fail). -/
def pyDigitsAux : List Char → Nat → Option Nat
  | [], acc => some acc
  | c :: rest, acc =>
    if c = '_' then
      match rest with
      | c2 :: rest2 =>
        if c2.isDigit then pyDigitsAux rest2 (acc * 10 + digitVal c2) else none
      | [] => none
    else if c.isDigit then pyDigitsAux rest (acc * 10 + digitVal c) else none

/-- Unsigned digit-string parse: nonempty, starts with a digit. -/
def pyDigits : List Char → Option Nat
  | [] => none
  | c :: rest => if c.isDigit then pyDigitsAux rest (digitVal c) else none

/-- Optional sign then digits (input already whitespace-stripped). -/
def pySigned : List Char → Option Int
  | [] => none
  | c :: rest =>
    if c = '+' then (pyDigits rest).map Int.ofNat
    else if c = '-' then (pyDigits rest).map (fun n => -(n : Int))
    else (pyDigits (c :: rest)).map Int.ofNat

/-- Python `int(s)` on ASCII input: strip whitespace, optional sign, decimal
digits; `none` models the `ValueError` raised on malformed input. -/
def pyInt (cs : List Char) : Option Int := pySigned (stripWS cs)

/-- Python `s.split(sep)` for a one-character separator: always returns at
least one (possibly empty) piece; `"".split(",") = [""]`. -/
def splitOnChar (sep : Char) : List Char → List (List Char)
  | [] => [[]]
  | x :: xs =>
    if x = sep then [] :: splitOnChar sep xs
    else
      match splitOnChar sep xs with
      | [] => [[x]]
      | p :: ps => (x :: p) :: ps

/-- Python `s.split(sep, 1)` when `sep in s`: the part before the first
occurrence and everything after it; `none` when the character is absent. -/
def splitFirst (sep : Char) : List Char → Option (List Char × List Char)
  | [] => none
  | x :: xs =>
    if x = sep then some ([], xs)
    else (splitFirst sep xs).map (fun p => (x :: p.1, p.2))

/-! ## Page-range parser (`parse_ranges` inside `split_pdf`, app.py 87-99) -/

/-- Model of `sel.add(v)` on a Python `set`: a duplicate-free list. -/
def addToSet (sel : List Int) (v : Int) : List Int :=
  if v ∈ sel then sel else sel ++ [v]

/-- Python `range(lo, hi + 1)` over integers: `lo, lo+1, ..., hi`. -/
def rangeInts (lo hi : Int) : List Int :=
  (List.range (hi + 1 - lo).toNat).map (fun k : Nat => lo + (k : Int))

/-- One comma-separated token of `parse_ranges`: empty tokens are skipped;
a token containing a dash is split at the first dash and both halves parsed
as ints, inserting `range(max(1, a), min(maxn, b) + 1)`; otherwise the token
itself is parsed as an int and inserted.  `none` models the uncaught
`ValueError` from `int(...)`. -/
def parseToken (maxn : Nat) (sel : List Int) (part : List Char) : Option (List Int) :=
  if part.isEmpty then some sel
  else
    match splitFirst '-' part with
    | some p =>
      match pyInt p.1, pyInt p.2 with
      | some a, some b =>
        some ((rangeInts (max 1 a) (min (maxn : Int) b)).foldl addToSet sel)
      | _, _ => none
    | none => (pyInt part).map (addToSet sel)

/-- Model of `parse_ranges(spec, maxn)` (app.py 87-99): remove spaces, split on
commas, process each token into a set, then return the ascending sort of the
members lying in `[1, maxn]`. -/
def parse_rangesCore (spec : List Char) (maxn : Nat) : Option (List Int) :=
  ((splitOnChar ',' (spec.filter (fun c => c ≠ ' '))).foldlM (parseToken maxn) []).map
    (fun sel =>
      List.insertionSort (· ≤ ·)
        (sel.filter (fun i => decide (1 ≤ i ∧ i ≤ (maxn : Int)))))

/-- The parser `parse_ranges` applied to a Lean string literal. -/
def parse_ranges (spec : String) (maxn : Nat) : Option (List Int) :=
  parse_rangesCore spec.toList maxn

/-! ## Decimal rendering of an integer (Python `f"1-{len(reader.pages)}"`) -/

/-- The ten decimal digit characters. -/
def digitChar : Nat → Char
  | 0 => '0' | 1 => '1' | 2 => '2' | 3 => '3' | 4 => '4'
  | 5 => '5' | 6 => '6' | 7 => '7' | 8 => '8' | _ => '9'

/-- Decimal digits of `n` (most significant first) prepended to `acc`,
as Python's `str(n)` produces for a nonnegative int. -/
def decReprCore (n : Nat) (acc : List Char) : List Char :=
  if h : n < 10 then digitChar n :: acc
  else decReprCore (n / 10) (digitChar (n % 10) :: acc)
decreasing_by exact Nat.div_lt_self (by omega) (by omega)

/-- Python `str(n)`, `n ≥ 0`. -/
def decRepr (n : Nat) : List Char := decReprCore n []

/-- The defaulted page spec `f"1-{len(reader.pages)}"` used by `split_pdf`
when the `pages` field is empty (app.py 101). -/
def defaultSpec (n : Nat) : List Char := '1' :: '-' :: decRepr n

/-! ## Uploaded files and the upload validator (`_is_type`, app.py 45-48) -/

/-- An uploaded file as seen by the handlers: client-declared filename and
content type, plus the raw bytes (which the type check never reads). -/
structure FileStorage where
  filename : String
  mimetype : Option String
  content : List Nat
deriving DecidableEq

/-- Is `sub` an initial segment of `hay` (Python string `startswith`)? -/
def subAt : List Char → List Char → Bool
  | [], _ => true
  | _ :: _, [] => false
  | c :: cs, h :: hs => c = h && subAt cs hs

/-- Python `sub in hay` on strings: substring check. -/
def isSubstr (sub : List Char) : List Char → Bool
  | [] => subAt sub []
  | h :: hs => subAt sub (h :: hs) || isSubstr sub hs

/-- Model of `ALLOWED_PDF` (app.py 40); set iteration order is irrelevant to `any`. -/
def ALLOWED_PDF : List (List Char) := ["application/pdf".toList, ".pdf".toList]

/-- Model of `ALLOWED_DOC` (app.py 41). -/
def ALLOWED_DOC : List (List Char) :=
  ["application/vnd.openxmlformats-officedocument.wordprocessingml.document".toList,
   ".docx".toList]

/-- Model of `ALLOWED_IMG` (app.py 42). -/
def ALLOWED_IMG : List (List Char) := ["image/jpeg".toList, ".jpg".toList, ".jpeg".toList]

/-- Model of `_is_type(file_storage, allowed)` (app.py 45-48): accept when the
lowercased filename contains some marker or the lowercased declared
content-type does (a missing/empty mimetype lowercases to the empty string).
Only ASCII lowercasing matters here: every marker is ASCII. -/
def _is_type (fs : FileStorage) (allowed : List (List Char)) : Bool :=
  let filename := fs.filename.toList.map Char.toLower
  let ctype :=
    match fs.mimetype with
    | some m => m.toList.map Char.toLower
    | none => []
  allowed.any (fun x => isSubstr x filename) || allowed.any (fun x => isSubstr x ctype)

/-! ## Operation handlers

Each handler is modelled as a pure function from the request data (uploaded
files, form fields) and, where relevant, abstract collaborator behaviour, to
an outcome.  Outcomes mirror the HTTP responses of app.py; an uncaught
Python exception propagating out of a Flask view is served as HTTP 500, so
it is modelled as a distinct `serverError` outcome.  Handlers that the
claims examine for invocation order additionally produce an event trace. -/

/-- Events visible to collaborators or the filesystem, in emission order. -/
inductive Ev where
  | typeCheck   -- `_is_type` consulted for an uploaded file
  | newWriter   -- `PdfWriter()`
  | readPdf     -- `PdfReader(f)`
  | writeOut    -- `writer.write(out)`
  | mkScratch   -- `tempfile.TemporaryDirectory()`
  | saveFile    -- `f.save(path)`
  | img2pdfCall -- `img2pdf.convert(image_paths)`
deriving DecidableEq

/-- Outcome of `/api/merge`. -/
inductive MergeResult (α : Type) where
  | noFiles                       -- ("No files uploaded", 400)
  | invalidType (filename : String)  -- (f"Invalid file type: ...", 400)
  | ok (pages : List α)           -- merged.pdf holding these pages in order
deriving DecidableEq

/-- HTTP status of a merge outcome. -/
def MergeResult.status {α} : MergeResult α → Nat
  | .noFiles => 400
  | .invalidType _ => 400
  | .ok _ => 200

/-- Loop body of `merge_pdf` (app.py 66-71): type-check each file, read it,
append its pages to the writer. -/
def mergeGo {α : Type} (acc : List α) (evs : List Ev) :
    List (FileStorage × List α) → MergeResult α × List Ev
  | [] => (.ok acc, evs ++ [.writeOut])
  | f :: rest =>
    if _is_type f.1 ALLOWED_PDF then
      mergeGo (acc ++ f.2) (evs ++ [.typeCheck, .readPdf]) rest
    else (.invalidType f.1.filename, evs ++ [.typeCheck])

/-- Model of `merge_pdf` (app.py 61-76): a request is a list of uploaded files, each
carrying its page list (pages are abstract: `α`). -/
def merge_pdf {α : Type} (files : List (FileStorage × List α)) :
    MergeResult α × List Ev :=
  if files.isEmpty then (.noFiles, [])
  else mergeGo [] [.newWriter] files

/-- Outcome of `/api/split`.  `ok sel` returns `split.pdf` built from the
1-based source pages `sel` in order; `serverError` models the uncaught
`ValueError` escaping `parse_ranges` (Flask serves it as HTTP 500). -/
inductive SplitResult where
  | err400 (msg : String)
  | serverError
  | ok (sel : List Int)
deriving DecidableEq

/-- HTTP status of a split outcome. -/
def SplitResult.status : SplitResult → Nat
  | .err400 _ => 400
  | .serverError => 500
  | .ok _ => 200

/-- Model of `split_pdf` (app.py 80-109).  The request carries an optional uploaded
file together with its page count `len(reader.pages)`, and the optional
`pages` form field (`request.form.get("pages", "").strip()`). -/
def split_pdf (f : Option (FileStorage × Nat)) (pagesField : Option String) :
    SplitResult :=
  match f with
  | none => .err400 ("PDF required")
  | some (fs, pageCount) =>
    if _is_type fs ALLOWED_PDF then
      let pages := stripWS (pagesField.getD ("")).toList
      match parse_rangesCore (if pages.isEmpty then defaultSpec pageCount else pages)
          pageCount with
      | none => .serverError
      | some sel => .ok sel
    else .err400 ("PDF required")

/-- Outcome of `/api/compress`: which collaborator produced the result. -/
inductive CompressResult (β : Type) where
  | err400 (msg : String)
  | okPrimary (out : β)    -- Ghostscript output returned
  | okFallback (out : β)   -- pikepdf output returned
  | serverError            -- fallback also raised; Flask serves HTTP 500
deriving DecidableEq

/-- HTTP status of a compress outcome. -/
def CompressResult.status {β} : CompressResult β → Nat
  | .err400 _ => 400
  | .okPrimary _ => 200
  | .okFallback _ => 200
  | .serverError => 500

/-- Model of the preset dictionary lookup with default (app.py 125). -/
def gsPreset (preset : String) : String :=
  if preset = "screen" then ("/screen")
  else if preset = "ebook" then ("/ebook")
  else if preset = "printer" then ("/printer")
  else ("/ebook")

/-- Model of `compress_pdf` (app.py 113-147).  `gs quality input` is the whole
`try` block (save, run Ghostscript with the quality flag, read the output):
`none` is any exception there.  `pike input` is the pikepdf fallback block;
`none` is an exception there, which nothing catches. -/
def compress_pdf {α β : Type} (f : Option (FileStorage × α)) (level : Option String)
    (gs : String → α → Option β) (pike : α → Option β) : CompressResult β :=
  match f with
  | none => .err400 ("PDF required")
  | some (fs, data) =>
    if _is_type fs ALLOWED_PDF then
      let preset := level.getD ("ebook")
      match gs (gsPreset preset) data with
      | some out => .okPrimary out
      | none =>
        match pike data with
        | some out => .okFallback out
        | none => .serverError
    else .err400 ("PDF required")

/-- Outcome of `/api/jpg-to-pdf`. -/
inductive JpgResult (α : Type) where
  | noFiles                        -- ("No images uploaded", 400)
  | invalidImage (filename : String)  -- (f"Invalid image: ...", 400)
  | ok (images : List α)           -- one PDF packing the images in order
deriving DecidableEq

/-- HTTP status of a jpg-to-pdf outcome. -/
def JpgResult.status {α} : JpgResult α → Nat
  | .noFiles => 400
  | .invalidImage _ => 400
  | .ok _ => 200

/-- Loop body of `jpg_to_pdf` (app.py 217-222). -/
def jpgGo {α : Type} (acc : List α) (evs : List Ev) :
    List (FileStorage × α) → JpgResult α × List Ev
  | [] => (.ok acc, evs ++ [.img2pdfCall])
  | f :: rest =>
    if _is_type f.1 ALLOWED_IMG then
      jpgGo (acc ++ [f.2]) (evs ++ [.typeCheck, .saveFile]) rest
    else (.invalidImage f.1.filename, evs ++ [.typeCheck])

/-- Model of `jpg_to_pdf` (app.py 211-224): each uploaded file carries its image
content (abstract: `α`); `img2pdf.convert` packs the saved images in order. -/
def jpg_to_pdf {α : Type} (files : List (FileStorage × α)) :
    JpgResult α × List Ev :=
  if files.isEmpty then (.noFiles, [])
  else jpgGo [] [.mkScratch] files

/-- A PDF document as PyPDF2 presents it to `protect_pdf` / `unlock_pdf`:
its pages (abstract), whether it reports itself encrypted, and what
`reader.decrypt(pwd)` returns for each password (`true` = decrypted). -/
structure PdfDoc (α : Type) where
  pages : List α
  isEncrypted : Bool
  decryptOk : String → Bool

/-- Outcome of `/api/protect`. -/
inductive ProtectResult (α : Type) where
  | err400 (msg : String)
  | ok (pages : List α) (password : String)  -- re-serialized pages, encrypted
deriving DecidableEq

/-- HTTP status of a protect outcome. -/
def ProtectResult.status {α} : ProtectResult α → Nat
  | .err400 _ => 400
  | .ok _ _ => 200

/-- Model of `protect_pdf` (app.py 228-242): `pwd = request.form.get("password", "").strip()`;
`if not f or not _is_type(f, ALLOWED_PDF) or not pwd: 400` — all before
`PdfReader(f)`, hence before the document is read. -/
def protect_pdf {α : Type} (f : Option (FileStorage × PdfDoc α))
    (passwordField : Option String) : ProtectResult α :=
  let pwd := stripWS (passwordField.getD ("")).toList
  match f with
  | none => .err400 ("PDF and password required")
  | some (fs, doc) =>
    if _is_type fs ALLOWED_PDF then
      if pwd.isEmpty then .err400 ("PDF and password required")
      else .ok doc.pages (String.mk pwd)
    else .err400 ("PDF and password required")

/-- Outcome of `/api/unlock`. -/
inductive UnlockResult (α : Type) where
  | err400 (msg : String)
  | err401                     -- ("Incorrect password", 401)
  | ok (pages : List α)        -- re-serialized, unencrypted document
deriving DecidableEq

/-- HTTP status of an unlock outcome. -/
def UnlockResult.status {α} : UnlockResult α → Nat
  | .err400 _ => 400
  | .err401 => 401
  | .ok _ => 200

/-- Model of `unlock_pdf` (app.py 246-262): validate file and password; only when
`reader.is_encrypted` is `reader.decrypt(pwd)` consulted, failing with 401;
otherwise the pages are re-serialized and returned. -/
def unlock_pdf {α : Type} (f : Option (FileStorage × PdfDoc α))
    (passwordField : Option String) : UnlockResult α :=
  let pwd := stripWS (passwordField.getD ("")).toList
  match f with
  | none => .err400 ("PDF and password required")
  | some (fs, doc) =>
    if _is_type fs ALLOWED_PDF then
      if pwd.isEmpty then .err400 ("PDF and password required")
      else if doc.isEncrypted then
        if doc.decryptOk (String.mk pwd) then .ok doc.pages else .err401
      else .ok doc.pages
    else .err400 ("PDF and password required")

/-! ## Further definitions used by the development -/

/-- Power `10 ^ (number of decimal digits of n)`, by the recursion of `decReprCore`. -/
def tenPow (n : Nat) : Nat :=
  if h : n < 10 then 10 else 10 * tenPow (n / 10)
decreasing_by exact Nat.div_lt_self (by omega) (by omega)

/-- Modelled from the spec (§4.1), for comparison with `_is_type`: "A file is
accepted if its lowercased filename contains any accepted extension marker OR
its lowercased declared content-type contains any accepted marker." -/
def specAccepts (fs : FileStorage) (allowed : List (List Char)) : Prop :=
  (∃ m ∈ allowed, ∃ pre post,
      fs.filename.toList.map Char.toLower = pre ++ m ++ post) ∨
  (∃ m ∈ allowed, ∃ pre post,
      (match fs.mimetype with
       | some m2 => m2.toList.map Char.toLower
       | none => []) = pre ++ m ++ post)

/-- A token of the page spec as the spec describes them: empty (skipped), a
single integer, or an `A-B` range whose two halves are integers. -/
def isValidToken (t : List Char) : Bool :=
  t.isEmpty ||
    (match splitFirst '-' t with
     | none => (pyInt t).isSome
     | some p => (pyInt p.1).isSome && (pyInt p.2).isSome)

/-- A well-formed PDF upload used to instantiate witnesses. -/
def pdfUpload : FileStorage := ⟨"doc.pdf", some ("application/pdf"), [37, 80, 68, 70]⟩

/-! ## Concrete sanity checks -/

example : parse_ranges ("1-3,5") 10 = some [1, 2, 3, 5] := by decide
example : parse_ranges ("8-20") 10 = some [8, 9, 10] := by decide
example : parse_ranges ("15") 10 = some [] := by decide
example : parse_ranges ("x") 10 = none := by decide
example : parse_ranges ("1-2-3") 10 = none := by decide
example : parse_ranges (" 5 , 2,2") 10 = some [2, 5] := by decide
example : parse_ranges ("1-10") 10 = some [1,2,3,4,5,6,7,8,9,10] := by decide

example :
    _is_type ⟨"Report.PDF", none, [1, 2]⟩ ALLOWED_PDF = true := by decide
example :
    _is_type ⟨"evil.exe", some ("application/pdf"), []⟩ ALLOWED_PDF = true := by decide
example :
    _is_type ⟨"evil.exe", some ("text/html"), [37, 80, 68, 70]⟩ ALLOWED_PDF = false := by
  decide

/-! ## Invariants of the page-range parser -/

theorem addToSet_nodup {sel : List Int} {v : Int} (h : sel.Nodup) :
    (addToSet sel v).Nodup := by
  unfold addToSet
  split
  · exact h
  · next hv =>
    rw [List.nodup_append]
    exact ⟨h, List.nodup_singleton v,
      fun x hx hxmem => hv ((List.mem_singleton.mp hxmem) ▸ hx)⟩

theorem foldl_addToSet_nodup (L : List Int) {sel : List Int} (h : sel.Nodup) :
    (L.foldl addToSet sel).Nodup := by
  induction L generalizing sel with
  | nil => exact h
  | cons x xs ih => exact ih (addToSet_nodup h)

theorem parseToken_nodup {maxn : Nat} {sel : List Int} {part : List Char}
    {sel' : List Int} (h : sel.Nodup)
    (he : parseToken maxn sel part = some sel') : sel'.Nodup := by
  unfold parseToken at he
  split at he
  · exact (Option.some_inj.mp he) ▸ h
  · split at he
    · next p _ =>
      cases hpa : pyInt p.1 with
      | none => rw [hpa] at he; cases hpb : pyInt p.2 <;> simp [hpb] at he
      | some a =>
        cases hpb : pyInt p.2 with
        | none => rw [hpa, hpb] at he; simp at he
        | some b =>
          rw [hpa, hpb] at he
          simp only [Option.some_inj] at he
          exact he ▸ foldl_addToSet_nodup _ h
    · cases hp : pyInt part with
      | none => rw [hp] at he; simp at he
      | some v =>
        rw [hp] at he
        simp only [Option.map_some', Option.some_inj] at he
        exact he ▸ addToSet_nodup h

theorem foldlM_parseToken_nodup (parts : List (List Char)) {maxn : Nat}
    {sel sel' : List Int} (h : sel.Nodup)
    (he : parts.foldlM (parseToken maxn) sel = some sel') : sel'.Nodup := by
  induction parts generalizing sel with
  | nil =>
    have hss : sel = sel' := by simpa using he
    exact hss ▸ h
  | cons p ps ih =>
    rw [List.foldlM_cons] at he
    cases hstep : parseToken maxn sel p with
    | none => rw [hstep] at he; simp at he
    | some sel₁ =>
      rw [hstep] at he
      exact ih (parseToken_nodup h hstep) he

/-- The list produced by a successful `parse_rangesCore` run: the ascending
sort of the filtered set. -/
theorem parse_rangesCore_some {spec : List Char} {maxn : Nat} {l : List Int}
    (h : parse_rangesCore spec maxn = some l) :
    l.Sorted (· < ·) ∧ ∀ i ∈ l, 1 ≤ i ∧ i ≤ (maxn : Int) := by
  unfold parse_rangesCore at h
  rw [Option.map_eq_some'] at h
  obtain ⟨sel, hsel, rfl⟩ := h
  have hnd : sel.Nodup := foldlM_parseToken_nodup _ List.nodup_nil hsel
  have hndf : (sel.filter (fun i => decide (1 ≤ i ∧ i ≤ (maxn : Int)))).Nodup :=
    hnd.filter _
  have hperm := List.perm_insertionSort (· ≤ ·)
    (sel.filter (fun i => decide (1 ≤ i ∧ i ≤ (maxn : Int))))
  have hsorted : (List.insertionSort (· ≤ ·)
      (sel.filter (fun i => decide (1 ≤ i ∧ i ≤ (maxn : Int))))).Sorted (· ≤ ·) :=
    List.sorted_insertionSort (· ≤ ·) _
  refine ⟨hsorted.lt_of_le (hperm.nodup_iff.mpr hndf), ?_⟩
  intro i hi
  have := List.of_mem_filter (hperm.mem_iff.mp hi)
  simpa using this

/-! ## Decimal rendering round-trips through Python `int` -/

theorem digitChar_facts {d : Nat} (hd : d < 10) :
    (digitChar d).isDigit = true ∧ digitChar d ≠ '_' ∧ digitChar d ≠ '+' ∧
      digitChar d ≠ '-' ∧ digitChar d ≠ ',' ∧ digitChar d ≠ ' ' ∧
      isPyWS (digitChar d) = false ∧ digitVal (digitChar d) = d := by
  interval_cases d <;> exact ⟨by decide, by decide, by decide, by decide,
    by decide, by decide, by decide, by decide⟩

theorem decReprCore_mem (n : Nat) :
    ∀ (acc : List Char), ∀ c ∈ decReprCore n acc,
      c ∈ acc ∨ ∃ d, d < 10 ∧ c = digitChar d := by
  induction n using Nat.strong_induction_on with
  | _ n ih =>
    intro acc c hc
    rw [decReprCore] at hc
    split at hc
    · next h =>
      rcases List.mem_cons.mp hc with hc | hc
      · exact Or.inr ⟨n, h, hc⟩
      · exact Or.inl hc
    · next h =>
      rcases ih (n / 10) (Nat.div_lt_self (by omega) (by omega)) _ c hc with hc | hc
      · rcases List.mem_cons.mp hc with hc | hc
        · exact Or.inr ⟨n % 10, Nat.mod_lt _ (by omega), hc⟩
        · exact Or.inl hc
      · exact Or.inr hc

theorem decReprCore_shape (n : Nat) :
    ∀ (acc : List Char), ∃ d rest, decReprCore n acc = digitChar d :: rest ∧ d < 10 := by
  induction n using Nat.strong_induction_on with
  | _ n ih =>
    intro acc
    rw [decReprCore]
    split
    · next h => exact ⟨n, acc, rfl, h⟩
    · next h => exact ih (n / 10) (Nat.div_lt_self (by omega) (by omega)) _

theorem pyDigitsAux_nil (a : Nat) : pyDigitsAux [] a = some a := rfl

theorem pyDigitsAux_cons (c : Char) (cs : List Char) (a : Nat)
    (hus : c ≠ '_') (hdig : c.isDigit = true) :
    pyDigitsAux (c :: cs) a = pyDigitsAux cs (a * 10 + digitVal c) := by
  rw [pyDigitsAux.eq_def]
  simp only [if_neg hus, if_pos hdig]

theorem pyDigits_cons (c : Char) (cs : List Char) :
    pyDigits (c :: cs) = if c.isDigit then pyDigitsAux cs (digitVal c) else none :=
  rfl

theorem pyDigitsAux_decReprCore (n : Nat) :
    ∀ (cs : List Char) (a : Nat),
      pyDigitsAux (decReprCore n cs) a = pyDigitsAux cs (a * tenPow n + n) := by
  induction n using Nat.strong_induction_on with
  | _ n ih =>
    intro cs a
    by_cases h : n < 10
    · obtain ⟨hdig, hus, -, -, -, -, -, hval⟩ := digitChar_facts h
      rw [decReprCore, dif_pos h, tenPow, dif_pos h,
        pyDigitsAux_cons _ _ _ hus hdig, hval]
    · have hlt : n / 10 < n := Nat.div_lt_self (by omega) (by omega)
      obtain ⟨hdig, hus, -, -, -, -, -, hval⟩ :=
        digitChar_facts (Nat.mod_lt n (show 0 < 10 by omega) : n % 10 < 10)
      rw [decReprCore, dif_neg h, tenPow, dif_neg h, ih (n / 10) hlt,
        pyDigitsAux_cons _ _ _ hus hdig, hval]
      congr 1
      have hdm : 10 * (n / 10) + n % 10 = n := Nat.div_add_mod n 10
      calc (a * tenPow (n / 10) + n / 10) * 10 + n % 10
          = a * (10 * tenPow (n / 10)) + (10 * (n / 10) + n % 10) := by ring
        _ = a * (10 * tenPow (n / 10)) + n := by rw [hdm]

theorem pyDigits_decRepr (n : Nat) : pyDigits (decRepr n) = some n := by
  obtain ⟨d, rest, hshape, hd⟩ := decReprCore_shape n []
  obtain ⟨hdig, hus, -, -, -, -, -, -⟩ := digitChar_facts hd
  have h0 : pyDigits (decRepr n) = pyDigitsAux (decRepr n) 0 := by
    rw [decRepr, hshape, pyDigits_cons, if_pos hdig,
      pyDigitsAux_cons _ _ _ hus hdig]
    congr 1
    omega
  rw [h0, decRepr, pyDigitsAux_decReprCore n [] 0, pyDigitsAux_nil]
  congr 1
  omega

/-- Every character of `decRepr n` is a decimal digit. -/
theorem decRepr_digit {n : Nat} {c : Char} (hc : c ∈ decRepr n) :
    ∃ d, d < 10 ∧ c = digitChar d := by
  rcases decReprCore_mem n [] c hc with h | h
  · cases h
  · exact h

theorem stripWS_eq_self {l : List Char} (h : ∀ c ∈ l, isPyWS c = false) :
    stripWS l = l := by
  unfold stripWS
  have h1 : l.dropWhile isPyWS = l := by
    cases l with
    | nil => rfl
    | cons x xs =>
      exact List.dropWhile_cons_of_neg (by simp [h x (List.mem_cons_self x xs)])
  rw [h1]
  have h2 : l.reverse.dropWhile isPyWS = l.reverse := by
    cases hrev : l.reverse with
    | nil => rfl
    | cons x xs =>
      refine List.dropWhile_cons_of_neg ?_
      have hx : x ∈ l := by
        rw [← List.mem_reverse, hrev]; exact List.mem_cons_self x xs
      simp [h x hx]
  rw [h2, List.reverse_reverse]

theorem pyInt_decRepr (n : Nat) : pyInt (decRepr n) = some (n : Int) := by
  obtain ⟨d, rest, hshape, hd⟩ := decReprCore_shape n []
  obtain ⟨-, -, hplus, hminus, -, -, -, -⟩ := digitChar_facts hd
  have hs : stripWS (decRepr n) = decRepr n := by
    refine stripWS_eq_self (fun c hc => ?_)
    obtain ⟨d', hd', rfl⟩ := decRepr_digit hc
    exact (digitChar_facts hd').2.2.2.2.2.2.1
  rw [pyInt, hs, decRepr, hshape, pySigned, if_neg hplus, if_neg hminus,
    ← hshape, ← decRepr, pyDigits_decRepr]
  rfl

/-! ## The defaulted spec parses to the full range -/

theorem splitOnChar_cons (sep x : Char) (xs : List Char) :
    splitOnChar sep (x :: xs) =
      if x = sep then [] :: splitOnChar sep xs
      else
        match splitOnChar sep xs with
        | [] => [[x]]
        | p :: ps => (x :: p) :: ps := rfl

theorem splitFirst_cons (sep x : Char) (xs : List Char) :
    splitFirst sep (x :: xs) =
      if x = sep then some ([], xs)
      else (splitFirst sep xs).map (fun p => (x :: p.1, p.2)) := rfl

theorem splitOnChar_eq_single {sep : Char} {l : List Char}
    (h : ∀ c ∈ l, c ≠ sep) : splitOnChar sep l = [l] := by
  induction l with
  | nil => rfl
  | cons x xs ih =>
    rw [splitOnChar_cons, if_neg (h x (List.mem_cons_self x xs)),
      ih (fun c hc => h c (List.mem_cons_of_mem x hc))]

theorem rangeInts_sorted (lo hi : Int) : (rangeInts lo hi).Sorted (· < ·) := by
  unfold rangeInts
  rw [List.Sorted, List.pairwise_map]
  exact (List.pairwise_lt_range _).imp (fun h => by omega)

theorem rangeInts_nodup (lo hi : Int) : (rangeInts lo hi).Nodup :=
  (rangeInts_sorted lo hi).imp (fun h => ne_of_lt h)

theorem mem_rangeInts {lo hi i : Int} (h : i ∈ rangeInts lo hi) :
    lo ≤ i ∧ i ≤ hi := by
  unfold rangeInts at h
  obtain ⟨k, hk, rfl⟩ := List.mem_map.mp h
  rw [List.mem_range] at hk
  omega

theorem foldl_addToSet_eq_append :
    ∀ (L acc : List Int), (acc ++ L).Nodup → L.foldl addToSet acc = acc ++ L := by
  intro L
  induction L with
  | nil => intro acc _; simp
  | cons x xs ih =>
    intro acc h
    have hx : x ∉ acc := by
      rw [List.nodup_append] at h
      exact fun hmem => h.2.2 hmem (List.mem_cons_self x xs)
    rw [List.foldl_cons, addToSet, if_neg hx]
    have h' : ((acc ++ [x]) ++ xs).Nodup := by
      rw [List.append_assoc, List.singleton_append]
      exact h
    rw [ih (acc ++ [x]) h', List.append_assoc, List.singleton_append]

theorem defaultSpec_chars {n : Nat} {c : Char} (hc : c ∈ defaultSpec n) :
    c = '1' ∨ c = '-' ∨ ∃ d, d < 10 ∧ c = digitChar d := by
  rw [defaultSpec] at hc
  rcases List.mem_cons.mp hc with rfl | hc
  · exact Or.inl rfl
  rcases List.mem_cons.mp hc with rfl | hc
  · exact Or.inr (Or.inl rfl)
  · exact Or.inr (Or.inr (decRepr_digit hc))

theorem parseToken_defaultSpec (n : Nat) :
    parseToken n [] (defaultSpec n) = some (rangeInts 1 n) := by
  have hsf : splitFirst '-' (defaultSpec n) = some (['1'], decRepr n) := by
    rw [defaultSpec, splitFirst_cons, if_neg (by decide : ¬('1' = '-')),
      splitFirst_cons, if_pos rfl, Option.map_some']
  have hstep : parseToken n [] (defaultSpec n) =
      match pyInt ['1'], pyInt (decRepr n) with
      | some a, some b =>
        some ((rangeInts (max 1 a) (min (n : Int) b)).foldl addToSet [])
      | _, _ => none := by
    rw [parseToken.eq_def, hsf]
    rfl
  rw [hstep, (by decide : pyInt ['1'] = some 1), pyInt_decRepr]
  show some ((rangeInts (max 1 1) (min (n : Int) (n : Int))).foldl addToSet []) = _
  rw [max_self, min_self]
  have h2 := foldl_addToSet_eq_append (rangeInts 1 (n : Int)) []
    (by simpa using rangeInts_nodup 1 (n : Int))
  rw [h2, List.nil_append]

theorem parse_rangesCore_defaultSpec (n : Nat) :
    parse_rangesCore (defaultSpec n) n = some (rangeInts 1 n) := by
  have hnospace : (defaultSpec n).filter (fun c => c ≠ ' ') = defaultSpec n := by
    rw [List.filter_eq_self]
    intro a ha
    rcases defaultSpec_chars ha with rfl | rfl | ⟨d, hd, rfl⟩
    · decide
    · decide
    · simpa using (digitChar_facts hd).2.2.2.2.2.1
  have hsplit : splitOnChar ',' (defaultSpec n) = [defaultSpec n] := by
    refine splitOnChar_eq_single (fun c hc => ?_)
    rcases defaultSpec_chars hc with rfl | rfl | ⟨d, hd, rfl⟩
    · decide
    · decide
    · exact (digitChar_facts hd).2.2.2.2.1
  have hfilter : (rangeInts 1 n).filter
      (fun i => decide (1 ≤ i ∧ i ≤ (n : Int))) = rangeInts 1 n := by
    rw [List.filter_eq_self]
    intro a ha
    have hb := mem_rangeInts ha
    simpa using hb
  have hsorted_le : (rangeInts 1 n).Sorted (· ≤ ·) :=
    (rangeInts_sorted 1 n).imp (fun h => le_of_lt h)
  rw [parse_rangesCore, hnospace, hsplit, List.foldlM_cons,
    parseToken_defaultSpec]
  show some (List.insertionSort (fun x1 x2 => x1 ≤ x2)
      ((rangeInts 1 (n : Int)).filter (fun i => decide (1 ≤ i ∧ i ≤ (n : Int))))) =
    some (rangeInts 1 (n : Int))
  rw [hfilter, hsorted_le.insertionSort_eq]

/-! ## Characterisation of the upload validator -/

theorem subAt_iff (sub : List Char) :
    ∀ hay : List Char, subAt sub hay = true ↔ ∃ post, hay = sub ++ post := by
  induction sub with
  | nil => exact fun hay => ⟨fun _ => ⟨hay, rfl⟩, fun _ => rfl⟩
  | cons c cs ih =>
    intro hay
    cases hay with
    | nil =>
      constructor
      · intro h; cases h
      · rintro ⟨post, hpost⟩; cases hpost
    | cons h hs =>
      rw [subAt, Bool.and_eq_true, decide_eq_true_eq, ih hs]
      constructor
      · rintro ⟨rfl, post, rfl⟩; exact ⟨post, rfl⟩
      · rintro ⟨post, hpost⟩
        injection hpost with h1 h2
        exact ⟨h1.symm, post, h2⟩

theorem isSubstr_iff (sub : List Char) :
    ∀ hay : List Char, isSubstr sub hay = true ↔ ∃ pre post, hay = pre ++ sub ++ post := by
  intro hay
  induction hay with
  | nil =>
    rw [isSubstr, subAt_iff]
    constructor
    · rintro ⟨post, hpost⟩; exact ⟨[], post, hpost⟩
    · rintro ⟨pre, post, hpost⟩
      obtain ⟨hpre, hsp⟩ := List.append_eq_nil.mp hpost.symm
      obtain ⟨hpre2, hsub⟩ := List.append_eq_nil.mp hpre
      exact ⟨[], by simp [hsub]⟩
  | cons h hs ih =>
    rw [isSubstr, Bool.or_eq_true, subAt_iff, ih]
    constructor
    · rintro (⟨post, hpost⟩ | ⟨pre, post, hpost⟩)
      · exact ⟨[], post, by simp [hpost]⟩
      · exact ⟨h :: pre, post, by simp [hpost]⟩
    · rintro ⟨pre, post, hpost⟩
      cases pre with
      | nil => exact Or.inl ⟨post, by simpa using hpost⟩
      | cons p ps =>
        injection hpost with h1 h2
        exact Or.inr ⟨ps, post, by simpa using h2⟩

theorem _is_type_iff (fs : FileStorage) (allowed : List (List Char)) :
    _is_type fs allowed = true ↔ specAccepts fs allowed := by
  unfold _is_type specAccepts
  simp only [Bool.or_eq_true, List.any_eq_true, isSubstr_iff]

/-! ## Merge loop -/

theorem mergeGo_ok {α : Type} :
    ∀ (files : List (FileStorage × List α)) (acc : List α) (evs : List Ev),
      (∀ f ∈ files, _is_type f.1 ALLOWED_PDF = true) →
      ∃ evs', mergeGo acc evs files =
        (MergeResult.ok (acc ++ (files.map (fun f => f.2)).flatten), evs') := by
  intro files
  induction files with
  | nil => exact fun acc evs _ => ⟨evs ++ [Ev.writeOut], by simp [mergeGo]⟩
  | cons f rest ih =>
    intro acc evs h
    rw [mergeGo, if_pos (h f (List.mem_cons_self f rest))]
    obtain ⟨evs', hevs⟩ := ih (acc ++ f.2) (evs ++ [Ev.typeCheck, Ev.readPdf])
      (fun g hg => h g (List.mem_cons_of_mem f hg))
    exact ⟨evs', by rw [hevs]; simp⟩

theorem flatten_map_singleton {α : Type} (l : List α) :
    (l.map (fun p => [p])).flatten = l := by
  induction l with
  | nil => rfl
  | cons x xs ih => simp [ih]

/-! ## Dash tokens are clamped, bare tokens are filtered -/

theorem splitFirst_of_not_mem {sep : Char} {l : List Char}
    (h : ∀ c ∈ l, c ≠ sep) : splitFirst sep l = none := by
  induction l with
  | nil => rfl
  | cons x xs ih =>
    rw [splitFirst_cons, if_neg (h x (List.mem_cons_self x xs)),
      ih (fun c hc => h c (List.mem_cons_of_mem x hc))]
    rfl

theorem splitFirst_boundary {sep : Char} {asl : List Char} (bsl : List Char)
    (h : ∀ c ∈ asl, c ≠ sep) :
    splitFirst sep (asl ++ sep :: bsl) = some (asl, bsl) := by
  induction asl with
  | nil => rw [List.nil_append, splitFirst_cons, if_pos rfl]
  | cons x xs ih =>
    rw [List.cons_append, splitFirst_cons, if_neg (h x (List.mem_cons_self x xs)),
      ih (fun c hc => h c (List.mem_cons_of_mem x hc)), Option.map_some']

/-- Any token `f"{a}-{b}"` over decimal renderings: the selected pages are
exactly `range(max(1, a), min(maxn, b) + 1)` — clamped, never rejected. -/
theorem parse_rangesCore_dash (a b n : Nat) :
    parse_rangesCore (decRepr a ++ '-' :: decRepr b) n =
      some (rangeInts (max 1 (a : Int)) (min (n : Int) (b : Int))) := by
  have hmem : ∀ c ∈ decRepr a ++ '-' :: decRepr b,
      c = '-' ∨ ∃ d, d < 10 ∧ c = digitChar d := by
    intro c hc
    rcases List.mem_append.mp hc with hc | hc
    · exact Or.inr (decRepr_digit hc)
    · rcases List.mem_cons.mp hc with rfl | hc
      · exact Or.inl rfl
      · exact Or.inr (decRepr_digit hc)
  have hnospace : (decRepr a ++ '-' :: decRepr b).filter (fun c => c ≠ ' ') =
      decRepr a ++ '-' :: decRepr b := by
    rw [List.filter_eq_self]
    intro x hx
    rcases hmem x hx with rfl | ⟨d, hd, rfl⟩
    · decide
    · simpa using (digitChar_facts hd).2.2.2.2.2.1
  have hsplit : splitOnChar ',' (decRepr a ++ '-' :: decRepr b) =
      [decRepr a ++ '-' :: decRepr b] := by
    refine splitOnChar_eq_single (fun c hc => ?_)
    rcases hmem c hc with rfl | ⟨d, hd, rfl⟩
    · decide
    · exact (digitChar_facts hd).2.2.2.2.1
  have hsf : splitFirst '-' (decRepr a ++ '-' :: decRepr b) =
      some (decRepr a, decRepr b) := by
    refine splitFirst_boundary _ (fun c hc => ?_)
    obtain ⟨d, hd, rfl⟩ := decRepr_digit hc
    exact (digitChar_facts hd).2.2.2.1
  obtain ⟨d0, rest0, hshape, hd0⟩ := decReprCore_shape a []
  have hne : (decRepr a ++ '-' :: decRepr b).isEmpty = false := by
    rw [decRepr, hshape]
    rfl
  have htok : parseToken n [] (decRepr a ++ '-' :: decRepr b) =
      some ((rangeInts (max 1 (a : Int)) (min (n : Int) (b : Int))).foldl
        addToSet []) := by
    have hstep : parseToken n [] (decRepr a ++ '-' :: decRepr b) =
        match pyInt (decRepr a), pyInt (decRepr b) with
        | some x, some y =>
          some ((rangeInts (max 1 x) (min (n : Int) y)).foldl addToSet [])
        | _, _ => none := by
      rw [parseToken.eq_def, hne, hsf]
      rfl
    rw [hstep, pyInt_decRepr, pyInt_decRepr]
  have hfoldl : (rangeInts (max 1 (a : Int)) (min (n : Int) (b : Int))).foldl
      addToSet [] = rangeInts (max 1 (a : Int)) (min (n : Int) (b : Int)) := by
    have := foldl_addToSet_eq_append
      (rangeInts (max 1 (a : Int)) (min (n : Int) (b : Int))) []
      (by simpa using rangeInts_nodup (max 1 (a : Int)) (min (n : Int) (b : Int)))
    simpa using this
  have hfilter : (rangeInts (max 1 (a : Int)) (min (n : Int) (b : Int))).filter
      (fun i => decide (1 ≤ i ∧ i ≤ (n : Int))) =
      rangeInts (max 1 (a : Int)) (min (n : Int) (b : Int)) := by
    rw [List.filter_eq_self]
    intro i hi
    have hb := mem_rangeInts hi
    have h1 : (1 : Int) ≤ i := le_trans (le_max_left 1 (a : Int)) hb.1
    have h2 : i ≤ (n : Int) := le_trans hb.2 (min_le_left (n : Int) (b : Int))
    simp [h1, h2]
  have hsorted_le : (rangeInts (max 1 (a : Int)) (min (n : Int) (b : Int))).Sorted
      (· ≤ ·) :=
    (rangeInts_sorted (max 1 (a : Int)) (min (n : Int) (b : Int))).imp
      (fun h => le_of_lt h)
  rw [parse_rangesCore, hnospace, hsplit, List.foldlM_cons, htok, hfoldl]
  show some (List.insertionSort (fun x1 x2 => x1 ≤ x2)
      ((rangeInts (max 1 (a : Int)) (min (n : Int) (b : Int))).filter
        (fun i => decide (1 ≤ i ∧ i ≤ (n : Int))))) = _
  rw [hfilter, hsorted_le.insertionSort_eq]

/-- A bare decimal token `f"{v}"` with `v` outside `[1, maxn]` is inserted
into the set and then filtered out: the selection is empty, no error. -/
theorem parse_rangesCore_bare (v n : Nat) (hv : v < 1 ∨ n < v) :
    parse_rangesCore (decRepr v) n = some [] := by
  have hnospace : (decRepr v).filter (fun c => c ≠ ' ') = decRepr v := by
    rw [List.filter_eq_self]
    intro x hx
    obtain ⟨d, hd, rfl⟩ := decRepr_digit hx
    simpa using (digitChar_facts hd).2.2.2.2.2.1
  have hsplit : splitOnChar ',' (decRepr v) = [decRepr v] := by
    refine splitOnChar_eq_single (fun c hc => ?_)
    obtain ⟨d, hd, rfl⟩ := decRepr_digit hc
    exact (digitChar_facts hd).2.2.2.2.1
  have hsf : splitFirst '-' (decRepr v) = none := by
    refine splitFirst_of_not_mem (fun c hc => ?_)
    obtain ⟨d, hd, rfl⟩ := decRepr_digit hc
    exact (digitChar_facts hd).2.2.2.1
  obtain ⟨d0, rest0, hshape, hd0⟩ := decReprCore_shape v []
  have hne : (decRepr v).isEmpty = false := by
    rw [decRepr, hshape]
    rfl
  have htok : parseToken n [] (decRepr v) = some [(v : Int)] := by
    have hstep : parseToken n [] (decRepr v) =
        (pyInt (decRepr v)).map (addToSet []) := by
      rw [parseToken.eq_def, hne, hsf]
      rfl
    rw [hstep, pyInt_decRepr, Option.map_some']
    rfl
  have hfilter : ([(v : Int)].filter (fun i => decide (1 ≤ i ∧ i ≤ (n : Int)))) =
      [] := by
    have hcond : ¬(decide (1 ≤ (v : Int) ∧ (v : Int) ≤ (n : Int)) = true) := by
      rw [decide_eq_true_eq]
      omega
    simp only [List.filter_cons, List.filter_nil, if_neg hcond]
  rw [parse_rangesCore, hnospace, hsplit, List.foldlM_cons, htok]
  show some (List.insertionSort (fun x1 x2 => x1 ≤ x2)
      ([(v : Int)].filter (fun i => decide (1 ≤ i ∧ i ≤ (n : Int))))) = _
  rw [hfilter]
  rfl

/-! ## Valid tokens never raise -/

theorem parseToken_ne_none {maxn : Nat} {t : List Char}
    (h : isValidToken t = true) (sel : List Int) :
    parseToken maxn sel t ≠ none := by
  rw [isValidToken, Bool.or_eq_true] at h
  rw [parseToken.eq_def]
  by_cases hemp : t.isEmpty
  · rw [if_pos hemp]
    simp
  · rw [if_neg hemp]
    rcases h with h | h
    · exact absurd h hemp
    · cases hsf : splitFirst '-' t with
      | none =>
        simp only [hsf] at h ⊢
        obtain ⟨v, hv⟩ := Option.isSome_iff_exists.mp h
        rw [hv]
        simp
      | some p =>
        simp only [hsf, Bool.and_eq_true] at h ⊢
        obtain ⟨x, hx⟩ := Option.isSome_iff_exists.mp h.1
        obtain ⟨y, hy⟩ := Option.isSome_iff_exists.mp h.2
        rw [hx, hy]
        simp

theorem foldlM_parseToken_some {maxn : Nat} :
    ∀ (parts : List (List Char)) (sel : List Int),
      (∀ part ∈ parts, isValidToken part = true) →
      ∃ sel', parts.foldlM (parseToken maxn) sel = some sel' := by
  intro parts
  induction parts with
  | nil => exact fun sel _ => ⟨sel, rfl⟩
  | cons p ps ih =>
    intro sel h
    have h1 := @parseToken_ne_none maxn p (h p (List.mem_cons_self p ps)) sel
    cases hstep : parseToken maxn sel p with
    | none => exact absurd hstep h1
    | some sel₁ =>
      obtain ⟨sel', hsel'⟩ := ih sel₁ (fun q hq => h q (List.mem_cons_of_mem p hq))
      refine ⟨sel', ?_⟩
      rw [List.foldlM_cons, hstep]
      exact hsel'

/-! ## Claim theorems -/

/-- C1: for every page-range string all of whose comma-separated tokens (after
space removal) are valid — empty, a single integer, or an `A-B` range — and
every `pageCount ≥ 1`, `parse_ranges` succeeds and returns a strictly
ascending, duplicate-free sequence of integers within `[1, pageCount]`; in
particular `parse_ranges "1-3,5" 10 = some [1, 2, 3, 5]`. -/
theorem C1_valid_tokens_sorted_bounded (spec : String) (maxn : Nat)
    (_hpc : 1 ≤ maxn)
    (hvalid : ∀ part ∈ splitOnChar ',' (spec.toList.filter (fun c => c ≠ ' ')),
      isValidToken part = true) :
    (∃ l, parse_ranges spec maxn = some l ∧ l.Sorted (· < ·) ∧ l.Nodup ∧
        ∀ i ∈ l, 1 ≤ i ∧ i ≤ (maxn : Int)) ∧
      parse_ranges ("1-3,5") 10 = some [1, 2, 3, 5] := by
  obtain ⟨sel', hsel'⟩ := @foldlM_parseToken_some maxn _ [] hvalid
  have hps : parse_rangesCore spec.toList maxn =
      some (List.insertionSort (· ≤ ·)
        (sel'.filter (fun i => decide (1 ≤ i ∧ i ≤ (maxn : Int))))) := by
    rw [parse_rangesCore, hsel', Option.map_some']
  have hm := parse_rangesCore_some hps
  exact ⟨⟨_, hps, hm.1, hm.1.imp (fun hlt => ne_of_lt hlt), hm.2⟩, by decide⟩

theorem C1_witness :
    (∃ l, parse_ranges ("1-3,5") 10 = some l ∧ l.Sorted (· < ·) ∧ l.Nodup ∧
        ∀ i ∈ l, 1 ≤ i ∧ i ≤ (10 : Int)) ∧
      parse_ranges ("1-3,5") 10 = some [1, 2, 3, 5] :=
  C1_valid_tokens_sorted_bounded ("1-3,5") 10 (by decide) (by decide)

/-- C2: range endpoints are clamped into the document (`"8-20"` at 10 pages
gives `[8, 9, 10]`) while a bare out-of-range value is filtered out
(`"15"` at 10 pages gives `[]`); in general, for any decimal renderings of
naturals, a dash token selects `range(max(1,a), min(n,b)+1)` and a bare
token outside `[1, n]` selects nothing. -/
theorem C2_clamp_vs_drop :
    (∀ a b n : Nat, parse_rangesCore (decRepr a ++ '-' :: decRepr b) n =
        some (rangeInts (max 1 (a : Int)) (min (n : Int) (b : Int)))) ∧
      (∀ v n : Nat, v < 1 ∨ n < v → parse_rangesCore (decRepr v) n = some []) ∧
      parse_ranges ("8-20") 10 = some [8, 9, 10] ∧
      parse_ranges ("15") 10 = some [] :=
  ⟨parse_rangesCore_dash, parse_rangesCore_bare, by decide, by decide⟩

theorem C2_witness :
    parse_rangesCore (decRepr 8 ++ '-' :: decRepr 20) 10 =
        some (rangeInts (max 1 (8 : Int)) (min (10 : Int) (20 : Int))) ∧
      parse_rangesCore (decRepr 15) 10 = some [] :=
  ⟨C2_clamp_vs_drop.1 8 20 10, C2_clamp_vs_drop.2.1 15 10 (by omega)⟩

/-- C3 (code bug): a malformed token makes `int(...)` raise an uncaught
`ValueError`, so the split request dies with a generic HTTP 500, not the
400 input-validation error the spec prescribes; no partial result is
returned either way. -/
theorem C3_malformed_token_is_500 :
    parse_ranges ("x") 10 = none ∧
      split_pdf (some (⟨"doc.pdf", some ("application/pdf"), []⟩, 10)) (some ("x")) =
        SplitResult.serverError ∧
      SplitResult.serverError.status = 500 ∧
      SplitResult.serverError.status ≠ 400 :=
  ⟨by decide, by decide, rfl, by decide⟩

/-- C4: an empty (or missing) `pages` field falls back to the spec
`f"1-{pageCount}"`, whose parse is exactly `[1, ..., pageCount]`. -/
theorem C4_empty_spec_full_range (fs : FileStorage) (n : Nat)
    (hty : _is_type fs ALLOWED_PDF = true) (hn : 1 ≤ n) :
    split_pdf (some (fs, n)) none = SplitResult.ok (rangeInts 1 (n : Int)) ∧
      split_pdf (some (fs, n)) (some ("")) = SplitResult.ok (rangeInts 1 (n : Int)) ∧
      parse_rangesCore (defaultSpec n) n = some (rangeInts 1 (n : Int)) ∧
      rangeInts 1 (n : Int) = (List.range n).map (fun k : Nat => (k : Int) + 1) := by
  have hkey : ∀ pf : Option String, stripWS ((pf.getD ("")).toList) = [] →
      split_pdf (some (fs, n)) pf = SplitResult.ok (rangeInts 1 (n : Int)) := by
    intro pf hpf
    show (if _is_type fs ALLOWED_PDF then
        match parse_rangesCore
            (if (stripWS ((pf.getD ("")).toList)).isEmpty then defaultSpec n
             else stripWS ((pf.getD ("")).toList)) n with
        | none => SplitResult.serverError
        | some sel => SplitResult.ok sel
      else SplitResult.err400 ("PDF required")) = _
    rw [if_pos hty, hpf]
    show (match parse_rangesCore (defaultSpec n) n with
      | none => SplitResult.serverError
      | some sel => SplitResult.ok sel) = _
    rw [parse_rangesCore_defaultSpec]
  refine ⟨hkey none rfl, hkey (some ("")) rfl, parse_rangesCore_defaultSpec n, ?_⟩
  have htn : ((n : Int) + 1 - 1).toNat = n := by omega
  rw [rangeInts, htn]
  exact List.map_congr_left (fun k _ => by omega)

theorem C4_witness :
    split_pdf (some (pdfUpload, 3)) none = SplitResult.ok (rangeInts 1 (3 : Int)) ∧
      split_pdf (some (pdfUpload, 3)) (some ("")) =
        SplitResult.ok (rangeInts 1 (3 : Int)) ∧
      parse_rangesCore (defaultSpec 3) 3 = some (rangeInts 1 (3 : Int)) ∧
      rangeInts 1 (3 : Int) = (List.range 3).map (fun k : Nat => (k : Int) + 1) :=
  C4_empty_spec_full_range pdfUpload 3 (by decide) (by decide)

/-- C5: the upload validator accepts exactly when the lowercased filename or
the lowercased declared content-type contains an accepted marker, and its
verdict never depends on the uploaded bytes. -/
theorem C5_metadata_only_validation (fs : FileStorage) (allowed : List (List Char)) :
    (_is_type fs allowed = true ↔ specAccepts fs allowed) ∧
      ∀ bytes : List Nat,
        _is_type ⟨fs.filename, fs.mimetype, bytes⟩ allowed = _is_type fs allowed :=
  ⟨_is_type_iff fs allowed, fun _ => rfl⟩

/-- C6: zero uploaded files make merge and jpg-to-pdf answer 400 with an
empty event trace: no type check has run and no collaborator (writer,
reader, scratch dir, converter) has been touched. -/
theorem C6_zero_files_rejected_first :
    merge_pdf ([] : List (FileStorage × List Nat)) = (MergeResult.noFiles, []) ∧
      jpg_to_pdf ([] : List (FileStorage × Nat)) = (JpgResult.noFiles, []) ∧
      (MergeResult.noFiles : MergeResult Nat).status = 400 ∧
      (JpgResult.noFiles : JpgResult Nat).status = 400 :=
  ⟨rfl, rfl, rfl, rfl⟩

/-- C7: on a validated unlock request, an encrypted document whose decrypt
call rejects the password yields 401 and no file; an unencrypted document is
re-serialized and returned without the decrypt collaborator ever being
consulted (the answer is the same for every decrypt function). -/
theorem C7_unlock_auth (fs : FileStorage) (doc : PdfDoc Nat) (pw : Option String)
    (hty : _is_type fs ALLOWED_PDF = true)
    (hpw : (stripWS ((pw.getD ("")).toList)).isEmpty = false) :
    (doc.isEncrypted = true →
      doc.decryptOk (String.mk (stripWS ((pw.getD ("")).toList))) = false →
      unlock_pdf (some (fs, doc)) pw = UnlockResult.err401 ∧
        (UnlockResult.err401 : UnlockResult Nat).status = 401) ∧
    (doc.isEncrypted = false →
      unlock_pdf (some (fs, doc)) pw = UnlockResult.ok doc.pages ∧
        ∀ g : String → Bool,
          unlock_pdf (some (fs, ⟨doc.pages, doc.isEncrypted, g⟩)) pw =
            UnlockResult.ok doc.pages) := by
  have hify : ∀ d : PdfDoc Nat, unlock_pdf (some (fs, d)) pw =
      if (stripWS ((pw.getD ("")).toList)).isEmpty then
        UnlockResult.err400 ("PDF and password required")
      else if d.isEncrypted then
        if d.decryptOk (String.mk (stripWS ((pw.getD ("")).toList))) then
          UnlockResult.ok d.pages
        else UnlockResult.err401
      else UnlockResult.ok d.pages := by
    intro d
    show (if _is_type fs ALLOWED_PDF then _ else
      UnlockResult.err400 ("PDF and password required")) = _
    rw [if_pos hty]
  have hpwneg : ¬((stripWS ((pw.getD ("")).toList)).isEmpty = true) := by
    rw [hpw]
    exact Bool.false_ne_true
  constructor
  · intro henc hdec
    refine ⟨?_, rfl⟩
    rw [hify doc, if_neg hpwneg, if_pos henc,
      if_neg (by rw [hdec]; exact Bool.false_ne_true)]
  · intro henc
    constructor
    · rw [hify doc, if_neg hpwneg,
        if_neg (by rw [henc]; exact Bool.false_ne_true)]
    · intro g
      rw [hify ⟨doc.pages, doc.isEncrypted, g⟩,
        if_neg hpwneg, if_neg (by simp [henc])]

theorem C7_witness :
    unlock_pdf (some (pdfUpload, ⟨[7], true, fun _ => false⟩)) (some ("pw")) =
        UnlockResult.err401 ∧
      unlock_pdf (some (pdfUpload, ⟨[7], false, fun _ => true⟩)) (some ("pw")) =
        UnlockResult.ok [7] :=
  ⟨((C7_unlock_auth pdfUpload ⟨[7], true, fun _ => false⟩ (some ("pw"))
      (by decide) (by decide)).1 rfl rfl).1,
    ((C7_unlock_auth pdfUpload ⟨[7], false, fun _ => true⟩ (some ("pw"))
      (by decide) (by decide)).2 rfl).1⟩

/-- C8: compress maps the preset (`screen`/`ebook`/`printer`, anything else
defaulting to `/ebook`) to a quality flag and tries Ghostscript first; any
failure of that attempt falls through to the pikepdf optimization pass, and
the client sees a failure only when both collaborators fail. -/
theorem C8_compress_fallback (fs : FileStorage) (data : Nat) (level : Option String)
    (gs : String → Nat → Option Nat) (pike : Nat → Option Nat)
    (hty : _is_type fs ALLOWED_PDF = true) :
    (∀ out, gs (gsPreset (level.getD ("ebook"))) data = some out →
        compress_pdf (some (fs, data)) level gs pike = CompressResult.okPrimary out) ∧
    (∀ out, gs (gsPreset (level.getD ("ebook"))) data = none → pike data = some out →
        compress_pdf (some (fs, data)) level gs pike = CompressResult.okFallback out) ∧
    (gs (gsPreset (level.getD ("ebook"))) data = none → pike data = none →
        compress_pdf (some (fs, data)) level gs pike = CompressResult.serverError ∧
        (CompressResult.serverError : CompressResult Nat).status = 500) ∧
    gsPreset ("screen") = "/screen" ∧ gsPreset ("ebook") = "/ebook" ∧
    gsPreset ("printer") = "/printer" ∧
    (∀ p, p ≠ "screen" → p ≠ "ebook" → p ≠ "printer" → gsPreset p = "/ebook") := by
  refine ⟨?_, ?_, ?_, rfl, rfl, rfl, ?_⟩
  · intro out hgs
    show (if _is_type fs ALLOWED_PDF then _
      else CompressResult.err400 ("PDF required")) = _
    rw [if_pos hty, hgs]
  · intro out hgs hpk
    show (if _is_type fs ALLOWED_PDF then _
      else CompressResult.err400 ("PDF required")) = _
    rw [if_pos hty, hgs, hpk]
  · intro hgs hpk
    refine ⟨?_, rfl⟩
    show (if _is_type fs ALLOWED_PDF then _
      else CompressResult.err400 ("PDF required")) = _
    rw [if_pos hty, hgs, hpk]
  · intro p h1 h2 h3
    rw [gsPreset, if_neg h1, if_neg h2, if_neg h3]

theorem C8_witness :
    compress_pdf (some (pdfUpload, 0)) none (fun _ _ => none) (fun _ => some 5) =
      CompressResult.okFallback 5 :=
  (C8_compress_fallback pdfUpload 0 none (fun _ _ => none) (fun _ => some 5)
    (by decide)).2.1 5 rfl rfl

/-- C9: merging K ≥ 1 validated single-page uploads returns a document whose
page list is exactly the K uploaded pages, in upload order. -/
theorem C9_merge_single_pages {α : Type} (metas : List FileStorage) (pgs : List α)
    (hlen : metas.length = pgs.length)
    (hty : ∀ fs ∈ metas, _is_type fs ALLOWED_PDF = true)
    (hne : metas ≠ []) :
    (merge_pdf (metas.zip (pgs.map (fun p => [p])))).1 = MergeResult.ok pgs ∧
      pgs.length = metas.length := by
  refine ⟨?_, hlen.symm⟩
  have hlz : (metas.zip (pgs.map (fun p => [p]))).length = metas.length := by
    rw [List.length_zip, List.length_map, ← hlen, Nat.min_self]
  have hzne : (metas.zip (pgs.map (fun p => [p]))).isEmpty = false := by
    cases hzz : metas.zip (pgs.map (fun p => [p])) with
    | nil =>
      rw [hzz, List.length_nil] at hlz
      exact absurd (List.length_eq_zero.mp hlz.symm) hne
    | cons x xs => rfl
  have hmem : ∀ f ∈ metas.zip (pgs.map (fun p => [p])),
      _is_type f.1 ALLOWED_PDF = true := by
    rintro ⟨a, b⟩ hf
    exact hty a (List.of_mem_zip hf).1
  obtain ⟨evs', hgo⟩ :=
    mergeGo_ok (metas.zip (pgs.map (fun p => [p]))) [] [Ev.newWriter] hmem
  have hsnd : (metas.zip (pgs.map (fun p => [p]))).map (fun f => f.2) =
      pgs.map (fun p => [p]) :=
    List.map_snd_zip metas (pgs.map (fun p => [p]))
      (by rw [List.length_map, hlen])
  rw [merge_pdf, if_neg (by rw [hzne]; exact Bool.false_ne_true), hgo]
  show MergeResult.ok
      ([] ++ ((metas.zip (pgs.map (fun p => [p]))).map (fun f => f.2)).flatten) =
    MergeResult.ok pgs
  rw [List.nil_append, hsnd, flatten_map_singleton]

theorem C9_witness :
    (merge_pdf ([pdfUpload, ⟨"b.pdf", some ("application/pdf"), []⟩].zip
        (([10, 20] : List Nat).map (fun p => [p])))).1 =
      MergeResult.ok [10, 20] ∧ ([10, 20] : List Nat).length =
        [pdfUpload, (⟨"b.pdf", some ("application/pdf"), []⟩ : FileStorage)].length :=
  C9_merge_single_pages [pdfUpload, ⟨"b.pdf", some ("application/pdf"), []⟩]
    [10, 20] (by decide) (by decide) (by decide)

/-- C10: a protect or unlock request whose password is missing, empty or
whitespace-only gets 400, whatever the document holds — the file is never
read.  (The spec is silent on empty passwords; the code rejects them.) -/
theorem C10_blank_password_rejected {α : Type} (fs : FileStorage) (doc : PdfDoc α)
    (pw : Option String) (hpw : stripWS ((pw.getD ("")).toList) = []) :
    protect_pdf (some (fs, doc)) pw =
        ProtectResult.err400 ("PDF and password required") ∧
      unlock_pdf (some (fs, doc)) pw =
        UnlockResult.err400 ("PDF and password required") ∧
      (ProtectResult.err400 ("PDF and password required") : ProtectResult α).status
        = 400 ∧
      (UnlockResult.err400 ("PDF and password required") : UnlockResult α).status
        = 400 := by
  have hempty : (stripWS ((pw.getD ("")).toList)).isEmpty = true := by
    rw [hpw]
    rfl
  refine ⟨?_, ?_, rfl, rfl⟩
  · show (if _is_type fs ALLOWED_PDF then
        if (stripWS ((pw.getD ("")).toList)).isEmpty then
          ProtectResult.err400 ("PDF and password required")
        else ProtectResult.ok doc.pages (String.mk (stripWS ((pw.getD ("")).toList)))
      else ProtectResult.err400 ("PDF and password required")) = _
    by_cases hty : _is_type fs ALLOWED_PDF
    · rw [if_pos hty, if_pos hempty]
    · rw [if_neg hty]
  · show (if _is_type fs ALLOWED_PDF then
        if (stripWS ((pw.getD ("")).toList)).isEmpty then
          UnlockResult.err400 ("PDF and password required")
        else _
      else UnlockResult.err400 ("PDF and password required")) = _
    by_cases hty : _is_type fs ALLOWED_PDF
    · rw [if_pos hty, if_pos hempty]
    · rw [if_neg hty]

theorem C10_witness :
    protect_pdf (some (pdfUpload, (⟨[], false, fun _ => false⟩ : PdfDoc Nat)))
        (some ("   ")) = ProtectResult.err400 ("PDF and password required") ∧
      unlock_pdf (some (pdfUpload, (⟨[], false, fun _ => false⟩ : PdfDoc Nat)))
        (some ("   ")) = UnlockResult.err400 ("PDF and password required") ∧
      (ProtectResult.err400 ("PDF and password required") : ProtectResult Nat).status
        = 400 ∧
      (UnlockResult.err400 ("PDF and password required") : UnlockResult Nat).status
        = 400 :=
  C10_blank_password_rejected pdfUpload ⟨[], false, fun _ => false⟩ (some ("   "))
    (by decide)

end PdfMasterPro
